import Mathlib

/-!
# Verification of the cx-cli configuration store and output pipeline

Shallow embedding of the cx-cli command-line client (JavaScript sources under
`src/`).  The embedding models:

* `src/utils/config.js` — the local configuration store (`loadConfig`,
  `saveConfig`, `addDomain`) persisted at `~/.cx-cli/config.yaml`;
* `src/commands/delete.js` — `deleteDomain`;
* `src/commands/get.js` — the `get` command's control flow and the
  `display` command's API-key masking;
* `src/commands/call.js` — `formatSessionYaml`: timestamp normalisation,
  document reorganisation, chronological sorting of `events`/`log`
  arrays, and the colourised YAML rendering.

File-system and YAML behaviour is modelled explicitly: the persisted file
is a `FileState`; the yaml library's parse/stringify round trip on the
configuration object is modelled as the identity on the stored mapping.
-/

/-- A stored credential record: `\x7b apiKey \x7d` in `config.yaml`. -/
structure DomainRecord where
  apiKey : String
deriving DecidableEq, Repr

/-- The in-memory configuration object returned by `loadConfig`.
`domains = none` models a parsed YAML object that has no `domains`
property (in JS, `config.domains` is `undefined`). -/
structure Config where
  domains : Option (List (String × DomainRecord))
deriving DecidableEq, Repr

/-- The state of the backing file `~/.cx-cli/config.yaml`.

* `absent`      — the file does not exist;
* `emptyFile`   — the file exists but is empty (`yaml.parse` returns `null`);
* `malformed`   — the file's text makes `yaml.parse` throw;
* `noDomainsKey`— the file parses to a (truthy) object without a `domains` key;
* `store l`     — the file holds `domains: \x7b ... \x7d` with the entries `l`
  in document order (YAML mapping keys are unique). -/
inductive FileState where
  | absent
  | emptyFile
  | malformed
  | noDomainsKey
  | store (domains : List (String × DomainRecord))
deriving DecidableEq, Repr

/-- `loadConfig` (src/utils/config.js lines 20–33): ensures the config
directory exists, reads and parses the file.  Returns the configuration
together with a flag recording whether the `catch` branch logged a parse
error.  `yaml.parse(fileContent) || \x7b domains: \x7b\x7d \x7d` maps an
empty file (parse result `null`) to the empty store; a missing file or a
parse error also yields the empty store (the error is logged, not
re-thrown). -/
def loadConfig : FileState → Config × Bool
  | .absent => (⟨some []⟩, false)
  | .emptyFile => (⟨some []⟩, false)
  | .malformed => (⟨some []⟩, true)
  | .noDomainsKey => (⟨none⟩, false)
  | .store l => (⟨some l⟩, false)

/-- JavaScript object property assignment `obj[k] = v` on an object
represented as its ordered property list: an existing key keeps its
position and gets the new value, a new key is appended. -/
def jsAssign : List (String × DomainRecord) → String → DomainRecord →
    List (String × DomainRecord)
  | [], k, v => [(k, v)]
  | (k', v') :: t, k, v =>
      if k' = k then (k, v) :: t else (k', v') :: jsAssign t k v

/-- JavaScript property lookup `obj[k]` (first matching key; keys of a JS
object are unique). -/
def jsGet : List (String × DomainRecord) → String → Option DomainRecord
  | [], _ => none
  | (k', v) :: t, k => if k' = k then some v else jsGet t k

/-- `addDomain` (src/utils/config.js lines 56–66): load, default a missing
`domains` property to `\x7b\x7d`, assign `config.domains[domain] =
\x7b apiKey \x7d`, save.  `saveConfig` writes the whole configuration back,
so the new file state is a well-formed store. -/
def addDomain (fs : FileState) (domain apiKey : String) : FileState :=
  let c := (loadConfig fs).1
  let ds := c.domains.getD []
  .store (jsAssign ds domain ⟨apiKey⟩)

/-- Outcome of the `delete` command: whether it reported "not found" (and
exited non-zero), and whether `saveConfig` was reached. -/
structure DeleteResult where
  notFound : Bool
  saved : Bool
deriving DecidableEq, Repr

/-- `deleteDomain` (src/commands/delete.js lines 9–42): load; if
`!config.domains || !config.domains[domain]` report not-found and exit
before any save; otherwise `delete config.domains[domain]` and save. -/
def deleteDomain (fs : FileState) (domain : String) : FileState × DeleteResult :=
  let c := (loadConfig fs).1
  match c.domains with
  | none => (fs, ⟨true, false⟩)
  | some ds =>
    match jsGet ds domain with
    | none => (fs, ⟨true, false⟩)
    | some _ => (.store (ds.filter (fun p => p.1 != domain)), ⟨false, true⟩)

/-- Domain lookup through a file state (what a subsequent `loadConfig`
followed by `config.domains[d]` observes). -/
def storeLookup (fs : FileState) (d : String) : Option DomainRecord :=
  match (loadConfig fs).1.domains with
  | none => none
  | some ds => jsGet ds d

/-! ## The `get` command's control flow (src/commands/get.js) -/

/-- Resource kinds the `get` command can fetch. -/
inductive ResourceType where
  | subscriber
  | application
  | trunk
  | dnid
  | domainInfo
deriving DecidableEq, Repr

/-- Options of `cx-cli get`.  For each resource flag, `none` means the flag
was not supplied, `some none` that it was supplied without a value
(commander passes `true`), and `some (some id)` that it carried an id. -/
structure GetOptions where
  domain : Option String
  subscriber : Option (Option String)
  application : Option (Option String)
  trunk : Option (Option String)
  dnid : Option (Option String)
deriving DecidableEq, Repr

/-- Observable steps of one `get` invocation, in execution order. -/
inductive GetEvent where
  | loadStore
  | errorMissingDomainOption
  | errorDomainNotFound
  | usageErrorMultipleResources
  | apiRequest (rt : ResourceType)
deriving DecidableEq, Repr

/-- `[subscriber, application, trunk, dnid].filter(o => o !== undefined).length`
(src/commands/get.js line 161). -/
def resourceOptionsCount (o : GetOptions) : Nat :=
  [o.subscriber.isSome, o.application.isSome, o.trunk.isSome, o.dnid.isSome].count true

/-- Trace of `getDomain` (src/commands/get.js lines 138–248): the missing
`--domain` check runs first; then `loadConfig` is awaited; then the
domain-not-found check; only after that the mutually-exclusive resource
flags are counted and, if at most one is present, a single API request is
dispatched.  Each error event aborts the command (`process.exit(1)`), so
it terminates its trace. -/
def getDomainEvents (o : GetOptions) (fs : FileState) : List GetEvent :=
  match o.domain with
  | none => [.errorMissingDomainOption]
  | some d =>
    .loadStore ::
      match (loadConfig fs).1.domains with
      | none => [.errorDomainNotFound]
      | some ds =>
        match jsGet ds d with
        | none => [.errorDomainNotFound]
        | some _ =>
          if resourceOptionsCount o > 1 then [.usageErrorMultipleResources]
          else if o.subscriber.isSome then [.apiRequest .subscriber]
          else if o.application.isSome then [.apiRequest .application]
          else if o.trunk.isSome then [.apiRequest .trunk]
          else if o.dnid.isSome then [.apiRequest .dnid]
          else [.apiRequest .domainInfo]

/-! ## API-key masking in the `display` command -/

/-- The masked form shown by the `display` command (src/commands/get.js
lines 281–295 of the source bundle): keys
longer than 8 characters show their first 4 and last 4 characters joined
by `...`; shorter keys show a fixed 8-character mask. -/
def maskKey (apiKey : String) : String :=
  if apiKey.length > 8 then
    String.mk (apiKey.data.take 4) ++ "..." ++
      String.mk (apiKey.data.drop (apiKey.length - 4))
  else
    "********"

/-- The `display` command: loads the
configuration and renders each domain with its masked key.  It never calls
`saveConfig`, so the file state is returned untouched. -/
def displayCommand (fs : FileState) : FileState × List (String × String) :=
  (fs, ((loadConfig fs).1.domains.getD []).map (fun p => (p.1, maskKey p.2.apiKey)))

/-- The leak-freedom property claimed of the masked form: every nonempty
contiguous part of the stored key that occurs in the displayed output is
already a part of the key's first four or last four characters. -/
def NoLeak (apiKey out : String) : Prop :=
  ∀ t : String, t ≠ "" → t.data.IsInfix apiKey.data → t.data.IsInfix out.data →
    t.data.IsInfix (apiKey.data.take 4) ∨
      t.data.IsInfix (apiKey.data.drop (apiKey.length - 4))

/-! ## JavaScript `Date` model

`formatSessionYaml` repairs truncated timestamps with `new Date(s)` and
`date.toISOString()`.  The model below implements the ECMA-262 Date Time
String Format (`YYYY[-MM[-DD[THH:mm[:ss[.sss]](Z|±HH:MM)]]]`, four-digit
years) restricted to UTC-designated or date-only forms.  Strings without a
zone designator are parsed as local time by JavaScript and strings outside
the format fall back to host-specific heuristics; both are
timezone/implementation dependent and are modelled as parse failure
(`none`, i.e. an Invalid Date). -/

/-- A calendar instant in UTC, the result of a successful parse. -/
structure DT where
  year : Nat
  month : Nat
  day : Nat
  hour : Nat
  minute : Nat
  second : Nat
  ms : Nat
deriving DecidableEq, Repr

/-- Gregorian leap-year rule. -/
def isLeap (y : Nat) : Bool :=
  (y % 4 == 0 && y % 100 != 0) || (y % 400 == 0)

/-- Number of days in a month (`m` is 1-based). -/
def daysInMonth (y m : Nat) : Nat :=
  if m == 2 then (if isLeap y then 29 else 28)
  else if m == 4 || m == 6 || m == 9 || m == 11 then 30
  else 31

/-- Field ranges of a printable UTC instant (what `toISOString` emits for
epoch values inside the four-digit-year range). -/
def ValidDT (dt : DT) : Prop :=
  dt.year ≤ 9999 ∧ 1 ≤ dt.month ∧ dt.month ≤ 12 ∧
    1 ≤ dt.day ∧ dt.day ≤ daysInMonth dt.year dt.month ∧
    dt.hour ≤ 23 ∧ dt.minute ≤ 59 ∧ dt.second ≤ 59 ∧ dt.ms ≤ 999

instance (dt : DT) : Decidable (ValidDT dt) := by
  unfold ValidDT; infer_instance

/-- The decimal digit character for `n < 10`. -/
def digitChar (n : Nat) : Char := Char.ofNat (48 + n)

/-- Value of a decimal digit character. -/
def digitVal : Char → Option Nat
  | c => if c.isDigit then some (c.toNat - 48) else none

/-- Two decimal digits. -/
def d2 (a b : Char) : Option Nat :=
  match digitVal a, digitVal b with
  | some x, some y => some (x * 10 + y)
  | _, _ => none

/-- Three decimal digits. -/
def d3 (a b c : Char) : Option Nat :=
  match digitVal a, digitVal b, digitVal c with
  | some x, some y, some z => some (x * 100 + y * 10 + z)
  | _, _, _ => none

/-- Four decimal digits. -/
def d4 (a b c d : Char) : Option Nat :=
  match digitVal a, digitVal b, digitVal c, digitVal d with
  | some w, some x, some y, some z => some (w * 1000 + x * 100 + y * 10 + z)
  | _, _, _, _ => none

/-- The character sequence produced by `Date.prototype.toISOString` for an
instant with a four-digit year: `YYYY-MM-DDTHH:mm:ss.sssZ`. -/
def printDT (dt : DT) : List Char :=
  digitChar (dt.year / 1000) :: digitChar (dt.year / 100 % 10) ::
  digitChar (dt.year / 10 % 10) :: digitChar (dt.year % 10) :: '-' ::
  digitChar (dt.month / 10) :: digitChar (dt.month % 10) :: '-' ::
  digitChar (dt.day / 10) :: digitChar (dt.day % 10) :: 'T' ::
  digitChar (dt.hour / 10) :: digitChar (dt.hour % 10) :: ':' ::
  digitChar (dt.minute / 10) :: digitChar (dt.minute % 10) :: ':' ::
  digitChar (dt.second / 10) :: digitChar (dt.second % 10) :: '.' ::
  digitChar (dt.ms / 100) :: digitChar (dt.ms / 10 % 10) ::
  digitChar (dt.ms % 10) :: ['Z']

/-- `Date.prototype.toISOString`. -/
def toISOString (dt : DT) : String := String.mk (printDT dt)

/-- The calendar day after `(y, m, d)`. -/
def nextYMD (y m d : Nat) : Nat × Nat × Nat :=
  if d < daysInMonth y m then (y, m, d + 1)
  else if m < 12 then (y, m + 1, 1)
  else (y + 1, 1, 1)

/-- The calendar day before `(y, m, d)` (saturating at year 0, which is
outside every instant the theorems touch). -/
def prevYMD (y m d : Nat) : Nat × Nat × Nat :=
  if 1 < d then (y, m, d - 1)
  else if 1 < m then (y, m - 1, daysInMonth y (m - 1))
  else if 0 < y then (y - 1, 12, 31)
  else (0, 1, 1)

/-- Convert a parsed wall-clock time with a UTC offset (in minutes) to
UTC.  An offset moves the instant by less than a day, so the date shifts
by at most one calendar day. -/
def applyOffset (dt : DT) (off : Int) : DT :=
  if off = 0 then dt
  else
    let tot : Int := (dt.hour * 60 + dt.minute : Nat) - off
    if tot < 0 then
      let t2 := (tot + 1440).toNat
      let p := prevYMD dt.year dt.month dt.day
      ⟨p.1, p.2.1, p.2.2, t2 / 60, t2 % 60, dt.second, dt.ms⟩
    else if 1440 ≤ tot then
      let t2 := (tot - 1440).toNat
      let p := nextYMD dt.year dt.month dt.day
      ⟨p.1, p.2.1, p.2.2, t2 / 60, t2 % 60, dt.second, dt.ms⟩
    else
      ⟨dt.year, dt.month, dt.day, tot.toNat / 60, tot.toNat % 60,
        dt.second, dt.ms⟩

/-- Zone designator: `Z`, `+HH:MM` or `-HH:MM`, ending the string. -/
def parseZone : List Char → Option Int
  | ['Z'] => some 0
  | ['+', a, b, ':', c, d] =>
    match d2 a b, d2 c d with
    | some oh, some om =>
        if oh ≤ 23 ∧ om ≤ 59 then some ((oh * 60 + om : Nat) : Int) else none
    | _, _ => none
  | ['-', a, b, ':', c, d] =>
    match d2 a b, d2 c d with
    | some oh, some om =>
        if oh ≤ 23 ∧ om ≤ 59 then some (-((oh * 60 + om : Nat) : Int)) else none
    | _, _ => none
  | _ => none

/-- Range-check the time fields and build the UTC instant.  Hour 24 with
zero minutes/seconds/milliseconds denotes midnight at the end of the day,
as in ECMA-262. -/
def finalizeDT (y m d h mi s ms : Nat) (off : Int) : Option DT :=
  if h ≤ 23 ∧ mi ≤ 59 ∧ s ≤ 59 then
    some (applyOffset ⟨y, m, d, h, mi, s, ms⟩ off)
  else if h = 24 ∧ mi = 0 ∧ s = 0 ∧ ms = 0 then
    let p := nextYMD y m d
    some (applyOffset ⟨p.1, p.2.1, p.2.2, 0, 0, 0, 0⟩ off)
  else none

/-- After `HH:mm:ss`: optional `.sss`, then the zone. -/
def parseAfterSecond (y m d h mi s : Nat) : List Char → Option DT
  | '.' :: a :: b :: c :: rest =>
    match d3 a b c with
    | some ms =>
      match parseZone rest with
      | some off => finalizeDT y m d h mi s ms off
      | none => none
    | none => none
  | rest =>
    match parseZone rest with
    | some off => finalizeDT y m d h mi s 0 off
    | none => none

/-- After `HH:mm`: optional `:ss`, then the zone. -/
def parseAfterMinute (y m d h mi : Nat) : List Char → Option DT
  | ':' :: a :: b :: rest =>
    match d2 a b with
    | some s => parseAfterSecond y m d h mi s rest
    | none => none
  | rest =>
    match parseZone rest with
    | some off => finalizeDT y m d h mi 0 0 off
    | none => none

/-- After `YYYY-MM-DD`: either end of string (a date-only form, taken as
UTC midnight) or `THH:mm...`. -/
def parseAfterDay (y m d : Nat) : List Char → Option DT
  | [] => some ⟨y, m, d, 0, 0, 0, 0⟩
  | 'T' :: h1 :: h2 :: ':' :: n1 :: n2 :: rest =>
    match d2 h1 h2, d2 n1 n2 with
    | some h, some mi => parseAfterMinute y m d h mi rest
    | _, _ => none
  | _ => none

/-- After `YYYY-MM`: either end of string or `-DD...`. -/
def parseAfterMonth (y m : Nat) : List Char → Option DT
  | [] => some ⟨y, m, 1, 0, 0, 0, 0⟩
  | '-' :: a :: b :: rest =>
    match d2 a b with
    | some d =>
        if 1 ≤ d ∧ d ≤ daysInMonth y m then parseAfterDay y m d rest else none
    | none => none
  | _ => none

/-- After `YYYY`: either end of string or `-MM...`. -/
def parseAfterYear (y : Nat) : List Char → Option DT
  | [] => some ⟨y, 1, 1, 0, 0, 0, 0⟩
  | '-' :: a :: b :: rest =>
    match d2 a b with
    | some m =>
        if 1 ≤ m ∧ m ≤ 12 then parseAfterMonth y m rest else none
    | none => none
  | _ => none

/-- `new Date(string)` on the modelled grammar: `some` is a valid `Date`
(already converted to UTC), `none` an Invalid Date. -/
def parseDT (cs : List Char) : Option DT :=
  match cs with
  | a :: b :: c :: d :: rest =>
    match d4 a b c d with
    | some y => parseAfterYear y rest
    | none => none
  | _ => none

/-! ## The timestamp normalizer (src/commands/call.js lines 29–55) -/

/-- `/^\d\x7b4\x7d-\d\x7b2\x7d-\d\x7b2\x7dT\d\x7b2\x7d$/` — an hour-truncated
timestamp such as `2025-04-01T02`. -/
def isHourTrunc : List Char → Bool
  | [a, b, c, d, '-', e, f, '-', g, h, 'T', i, j] =>
    a.isDigit && b.isDigit && c.isDigit && d.isDigit && e.isDigit &&
      f.isDigit && g.isDigit && h.isDigit && i.isDigit && j.isDigit
  | _ => false

/-- `/^\d\x7b4\x7d-\d\x7b2\x7d-\d\x7b2\x7dT\d\x7b2\x7d:\d\x7b2\x7d$/` — a
minute-truncated timestamp such as `2025-04-01T02:15`. -/
def isMinuteTrunc : List Char → Bool
  | [a, b, c, d, '-', e, f, '-', g, h, 'T', i, j, ':', k, l] =>
    a.isDigit && b.isDigit && c.isDigit && d.isDigit && e.isDigit &&
      f.isDigit && g.isDigit && h.isDigit && i.isDigit && j.isDigit &&
      k.isDigit && l.isDigit
  | _ => false

/-- `/^\d\x7b4\x7d-\d\x7b2\x7d-\d\x7b2\x7dT\d\x7b2\x7d:\d\x7b2\x7d:\d\x7b2\x7d$/`
— a second-truncated timestamp such as `2025-04-01T02:15:30`. -/
def isSecondTrunc : List Char → Bool
  | [a, b, c, d, '-', e, f, '-', g, h, 'T', i, j, ':', k, l, ':', m, n] =>
    a.isDigit && b.isDigit && c.isDigit && d.isDigit && e.isDigit &&
      f.isDigit && g.isDigit && h.isDigit && i.isDigit && j.isDigit &&
      k.isDigit && l.isDigit && m.isDigit && n.isDigit
  | _ => false

/-- The repair step of the normalizer: append the missing
minutes/seconds/milliseconds (with a `Z` designator) to a truncated
timestamp; leave any other string as it is. -/
def augmentTrunc (cs : List Char) : List Char :=
  if isHourTrunc cs then cs ++ ":00:00.000Z".data
  else if isMinuteTrunc cs then cs ++ ":00.000Z".data
  else if isSecondTrunc cs then cs ++ ".000Z".data
  else cs

/-- The timestamp normalizer applied by `formatSessionYaml`'s JSON
replacer to every string value stored under a `timestamp` or `time` key:
repair truncation, parse, and return the canonical ISO form on success or
the original string on failure. -/
def normalizeTimestamp (s : String) : String :=
  match parseDT (augmentTrunc s.data) with
  | some dt => toISOString dt
  | none => s

/-- The characters of an hour-truncated timestamp `YYYY-MM-DDTHH`. -/
def hourTruncChars (y m d h : Nat) : List Char :=
  digitChar (y / 1000) :: digitChar (y / 100 % 10) :: digitChar (y / 10 % 10) ::
  digitChar (y % 10) :: '-' :: digitChar (m / 10) :: digitChar (m % 10) :: '-' ::
  digitChar (d / 10) :: digitChar (d % 10) :: 'T' ::
  digitChar (h / 10) :: [digitChar (h % 10)]

/-- The characters of a minute-truncated timestamp `YYYY-MM-DDTHH:mm`. -/
def minuteTruncChars (y m d h mi : Nat) : List Char :=
  digitChar (y / 1000) :: digitChar (y / 100 % 10) :: digitChar (y / 10 % 10) ::
  digitChar (y % 10) :: '-' :: digitChar (m / 10) :: digitChar (m % 10) :: '-' ::
  digitChar (d / 10) :: digitChar (d % 10) :: 'T' ::
  digitChar (h / 10) :: digitChar (h % 10) :: ':' ::
  digitChar (mi / 10) :: [digitChar (mi % 10)]

/-- The characters of a second-truncated timestamp `YYYY-MM-DDTHH:mm:ss`. -/
def secondTruncChars (y m d h mi s : Nat) : List Char :=
  digitChar (y / 1000) :: digitChar (y / 100 % 10) :: digitChar (y / 10 % 10) ::
  digitChar (y % 10) :: '-' :: digitChar (m / 10) :: digitChar (m % 10) :: '-' ::
  digitChar (d / 10) :: digitChar (d % 10) :: 'T' ::
  digitChar (h / 10) :: digitChar (h % 10) :: ':' ::
  digitChar (mi / 10) :: digitChar (mi % 10) :: ':' ::
  digitChar (s / 10) :: [digitChar (s % 10)]

/-- An hour-truncated timestamp string. -/
def hourTruncStr (y m d h : Nat) : String := String.mk (hourTruncChars y m d h)

/-- A minute-truncated timestamp string. -/
def minuteTruncStr (y m d h mi : Nat) : String :=
  String.mk (minuteTruncChars y m d h mi)

/-- A second-truncated timestamp string. -/
def secondTruncStr (y m d h mi s : Nat) : String :=
  String.mk (secondTruncChars y m d h mi s)

/-! ## JSON-shaped documents -/

/-- A JSON-shaped document: the response bodies the API returns.  Objects
are ordered property lists with unique keys. -/
inductive JValue where
  | null
  | bool (b : Bool)
  | num (n : Int)
  | str (s : String)
  | arr (items : List JValue)
  | obj (entries : List (String × JValue))

/-- JavaScript truthiness of a JSON value. -/
def jsTruthy : JValue → Bool
  | .null => false
  | .bool b => b
  | .num n => n != 0
  | .str s => s != ""
  | .arr _ => true
  | .obj _ => true

/-- JavaScript property lookup on an object's property list. -/
def jsField : List (String × JValue) → String → Option JValue
  | [], _ => none
  | (k', v) :: t, k => if k' = k then some v else jsField t k

mutual

/-- The JSON replacer of `formatSessionYaml`
(`JSON.parse(JSON.stringify(sessionInfo, replacer))`, src/commands/call.js
lines 29–55): every string value stored under a key named `timestamp` or
`time` is normalized; everything else is passed through and traversed. -/
def applyRep (key : String) : JValue → JValue
  | .str s =>
      if key == "timestamp" || key == "time" then .str (normalizeTimestamp s)
      else .str s
  | .arr l => .arr (applyRepArr l)
  | .obj l => .obj (applyRepObj l)
  | v => v

/-- Array elements are visited with their numeric index as key, which is
never `timestamp`/`time`; the model passes the empty key. -/
def applyRepArr : List JValue → List JValue
  | [] => []
  | x :: xs => applyRep "" x :: applyRepArr xs

def applyRepObj : List (String × JValue) → List (String × JValue)
  | [] => []
  | (k, v) :: xs => (k, applyRep k v) :: applyRepObj xs

end

/-! ## Chronological sorting of `events` and `log` arrays -/

/-- The Unix epoch, `new Date(0)`. -/
def epochDT : DT := ⟨1970, 1, 1, 0, 0, 0, 0⟩

/-- `new Date(value)` for a truthy document value.  String arguments use
the date model above; truthy non-string arguments (nonzero numbers,
booleans, arrays, objects) are outside the model and yield an Invalid
Date. -/
def jsNewDate : JValue → Option DT
  | .str s => parseDT s.data
  | _ => none

/-- `a.timestamp || fallback`: the field's value if present and truthy. -/
def truthyField (l : List (String × JValue)) (k : String) : Option JValue :=
  match jsField l k with
  | some v => if jsTruthy v then some v else none
  | none => none

/-- Sort key of an `events` entry: `new Date(a.timestamp || 0)`
(src/commands/call.js line 82).  A missing or falsy `timestamp` falls back
to `0`, the epoch.  A `null` entry would make the property access throw
and is modelled as an invalid key. -/
def eventKey : JValue → Option DT
  | .null => none
  | .obj l =>
    match truthyField l "timestamp" with
    | some v => jsNewDate v
    | none => some epochDT
  | _ => some epochDT

/-- Sort key of a `log` entry: `a.timestamp || a.time || 0`
(src/commands/call.js lines 89–90). -/
def logKey : JValue → Option DT
  | .null => none
  | .obj l =>
    match truthyField l "timestamp" with
    | some v => jsNewDate v
    | none =>
      match truthyField l "time" with
      | some v => jsNewDate v
      | none => some epochDT
  | _ => some epochDT

/-- A strictly monotone encoding of the chronological order of UTC
instants: for valid field ranges, comparing encodings agrees with the
epoch-millisecond comparison that JavaScript `Date` subtraction performs. -/
def DT.enc (dt : DT) : Nat :=
  (((((dt.year * 13 + dt.month) * 32 + dt.day) * 25 + dt.hour) * 60 +
      dt.minute) * 60 + dt.second) * 1000 + dt.ms

/-- The comparator's outcome on two parsed keys.  If either date is
invalid the subtraction yields `NaN`, which the sort treats as `0`
(a tie). -/
def cmpKey : Option DT → Option DT → Ordering
  | some x, some y => compare x.enc y.enc
  | _, _ => .eq

/-- "`a` need not come after `b`" for the events comparator. -/
def eventLe (a b : JValue) : Bool :=
  cmpKey (eventKey a) (eventKey b) != Ordering.gt

/-- "`a` need not come after `b`" for the log comparator. -/
def logLe (a b : JValue) : Bool :=
  cmpKey (logKey a) (logKey b) != Ordering.gt

/-- Insert into a sorted prefix, keeping the incoming element before the
first element it ties with or precedes (stability). -/
def stableInsert (le : α → α → Bool) (a : α) : List α → List α
  | [] => [a]
  | b :: t => if le a b then a :: b :: t else b :: stableInsert le a t

/-- `Array.prototype.sort` with a comparator: ECMA-262 requires a stable
sort; modelled as a stable insertion sort, which produces the same output
as any stable sort for a consistent comparator. -/
def jsSortBy (le : α → α → Bool) : List α → List α
  | [] => []
  | a :: t => stableInsert le a (jsSortBy le t)

/-- `events.sort((a, b) => new Date(a.timestamp || 0) - new Date(b.timestamp || 0))`. -/
def jsSortEvents (l : List JValue) : List JValue := jsSortBy eventLe l

/-- `log.sort` by `timestamp || time || 0`. -/
def jsSortLog (l : List JValue) : List JValue := jsSortBy logLe l

/-! ## The document reorganizer (src/commands/call.js lines 57–94) -/

/-- The code's complexity test: `Array.isArray(value) || (value !== null
&& typeof value === 'object' && Object.keys(value).length > 0)` — any
array, or any object with at least one property. -/
def isComplexVal : JValue → Bool
  | .arr _ => true
  | .obj l => !l.isEmpty
  | _ => false

/-- In the second pass, the `events` and `log` arrays are sorted
chronologically as they are copied over. -/
def sortSpecial (k : String) (v : JValue) : JValue :=
  if k == "events" then
    match v with
    | .arr l => .arr (jsSortEvents l)
    | v' => v'
  else if k == "log" then
    match v with
    | .arr l => .arr (jsSortLog l)
    | v' => v'
  else v

/-- `sessionForYaml[key]` for a key known to be present. -/
def jsLookup (doc : List (String × JValue)) (k : String) : JValue :=
  match jsField doc k with
  | some v => v
  | none => .null

/-- The reorganizer: first pass copies simple-valued keys in order and
records complex keys; second pass appends the complex entries in order,
sorting `events`/`log` arrays. -/
def reorganize (doc : List (String × JValue)) : List (String × JValue) :=
  doc.filter (fun p => !isComplexVal p.2) ++
    (doc.filter (fun p => isComplexVal p.2)).map
      (fun p => (p.1, sortSpecial p.1 (jsLookup doc p.1)))

/-! ## Rendering: the yaml library and chalk

Model of the external collaborators used by `formatSessionYaml` and
`formatYaml`: `yaml.stringify` in its default block style (two-space
indentation, empty collections inline, a trailing newline; plain strings
are modelled unquoted), and the ANSI escape sequences chalk emits. -/

/-- Two-space indentation. -/
def spaces (n : Nat) : String := String.mk (List.replicate (2 * n) ' ')

/-- Scalar rendering. -/
def scalarRepr : JValue → String
  | .null => "null"
  | .bool true => "true"
  | .bool false => "false"
  | .num n => toString n
  | .str s => s
  | .arr _ => ""
  | .obj _ => ""

mutual

/-- One mapping entry as block-YAML lines. -/
def yamlEntryLines (ind : Nat) : String × JValue → List String
  | (k, .obj []) => [spaces ind ++ k ++ ": \x7b\x7d"]
  | (k, .arr []) => [spaces ind ++ k ++ ": []"]
  | (k, .obj l) => (spaces ind ++ k ++ ":") :: yamlObjLines (ind + 1) l
  | (k, .arr l) => (spaces ind ++ k ++ ":") :: yamlArrLines (ind + 1) l
  | (k, v) => [spaces ind ++ k ++ ": " ++ scalarRepr v]

def yamlObjLines (ind : Nat) : List (String × JValue) → List String
  | [] => []
  | e :: t => yamlEntryLines ind e ++ yamlObjLines ind t

def yamlArrLines (ind : Nat) : List JValue → List String
  | [] => []
  | .obj [] :: t => (spaces ind ++ "- \x7b\x7d") :: yamlArrLines ind t
  | .arr [] :: t => (spaces ind ++ "- []") :: yamlArrLines ind t
  | .obj l :: t => (spaces ind ++ "-") :: (yamlObjLines (ind + 1) l ++ yamlArrLines ind t)
  | .arr l :: t => (spaces ind ++ "-") :: (yamlArrLines (ind + 1) l ++ yamlArrLines ind t)
  | v :: t => (spaces ind ++ "- " ++ scalarRepr v) :: yamlArrLines ind t

end

/-- Join lines with newlines. -/
def joinLines : List String → String
  | [] => ""
  | [l] => l
  | l :: t => l ++ "\n" ++ joinLines t

/-- `yaml.stringify` (block style, trailing newline; an empty mapping or
sequence renders inline). -/
def yamlStringify : JValue → String
  | .obj [] => "\x7b\x7d\n"
  | .arr [] => "[]\n"
  | .obj l => joinLines (yamlObjLines 0 l) ++ "\n"
  | .arr l => joinLines (yamlArrLines 0 l) ++ "\n"
  | v => scalarRepr v ++ "\n"

/-- `chalk.cyan`. -/
def chalkCyan (s : String) : String := "\x1b[36m" ++ s ++ "\x1b[39m"

/-- `chalk.yellow`. -/
def chalkYellow (s : String) : String := "\x1b[33m" ++ s ++ "\x1b[39m"

/-- `chalk.green`. -/
def chalkGreen (s : String) : String := "\x1b[32m" ++ s ++ "\x1b[39m"

/-- `chalk.bold.blue`. -/
def chalkBoldBlue (s : String) : String :=
  "\x1b[1m\x1b[34m" ++ s ++ "\x1b[39m\x1b[22m"

/-- `yamlString.split('\n')` on the character list (the split keeps a
trailing empty segment, as in JavaScript). -/
def splitLines : List Char → List (List Char)
  | [] => [[]]
  | '\n' :: t => [] :: splitLines t
  | c :: t =>
    match splitLines t with
    | h :: r => (c :: h) :: r
    | [] => [[c]]

/-- The characters of `s.trim()`. -/
def trimChars (cs : List Char) : List Char :=
  ((cs.dropWhile (fun c => c.isWhitespace)).reverse.dropWhile
      (fun c => c.isWhitespace)).reverse

/-- `s.trim()`. -/
def jsTrim (s : String) : String := String.mk (trimChars s.data)

/-! ## Value highlighting (`processValue`, src/commands/call.js lines
126–153 and its copy in src/commands/get.js) -/

/-- `^\d+(\.\d+)?$` on an already sign-stripped value. -/
def isUnsignedNum (cs : List Char) : Bool :=
  let ds := cs.takeWhile (fun c => c.isDigit)
  let rest := cs.dropWhile (fun c => c.isDigit)
  !ds.isEmpty &&
    (rest.isEmpty ||
      (match rest with
       | '.' :: fs => !fs.isEmpty && fs.all (fun c => c.isDigit)
       | _ => false))

/-- `^-?\d+(\.\d+)?$`. -/
def isNumLit : List Char → Bool
  | '-' :: rest => isUnsignedNum rest
  | cs => isUnsignedNum cs

/-- `^".*"$` or the single-quoted variant. -/
def isQuotedLit (cs : List Char) : Bool :=
  decide (2 ≤ cs.length) &&
    ((cs.head? == some '"' && cs.getLast? == some '"') ||
      (cs.head? == some (Char.ofNat 39) && cs.getLast? == some (Char.ofNat 39)))

/-- Does `\d\x7b4\x7d-\d\x7b2\x7d-\d\x7b2\x7dT` match at this position? -/
def dateAt : List Char → Bool
  | a :: b :: c :: d :: '-' :: e :: f :: '-' :: g :: h :: 'T' :: _ =>
    a.isDigit && b.isDigit && c.isDigit && d.isDigit && e.isDigit &&
      f.isDigit && g.isDigit && h.isDigit
  | _ => false

/-- Does `/\d\x7b4\x7d-\d\x7b2\x7d-\d\x7b2\x7dT/` match anywhere? -/
def hasDatePat : List Char → Bool
  | [] => false
  | cs@(_ :: rest) => dateAt cs || hasDatePat rest

/-- The character class `[\d:.Z+-]`. -/
def isDateChar (c : Char) : Bool :=
  c.isDigit || c == ':' || c == '.' || c == 'Z' || c == '+' || c == '-'

/-- The full date regex `\d\x7b4\x7d-\d\x7b2\x7d-\d\x7b2\x7dT[\d:.Z+-]+`
matches at this position (at least one class character after the `T`). -/
def matchDateAt (cs : List Char) : Bool :=
  dateAt cs &&
    (match cs.drop 11 with
     | c :: _ => isDateChar c
     | [] => false)

/-- `value.replace(/(\d\x7b4\x7d-\d\x7b2\x7d-\d\x7b2\x7dT[\d:.Z+-]+)/, green)` —
wrap the first (greedy) match in the green highlight. -/
def replaceFirstDate : List Char → List Char
  | [] => []
  | cs@(x :: rest) =>
    if matchDateAt cs then
      let head := cs.take 11
      let run := (cs.drop 11).takeWhile isDateChar
      let after := (cs.drop 11).dropWhile isDateChar
      (chalkGreen (String.mk (head ++ run))).data ++ after
    else x :: replaceFirstDate rest

/-- Wrap the trimmed core of `value` in a colour, keeping surrounding
whitespace: models replacing a regex match that covers exactly the
trimmed text. -/
def wrapCore (value : String) (color : String → String) : String :=
  let lead := String.mk (value.data.takeWhile (fun c => c.isWhitespace))
  let rest := value.data.dropWhile (fun c => c.isWhitespace)
  let coreLen := rest.length - (rest.reverse.takeWhile (fun c => c.isWhitespace)).length
  lead ++ color (String.mk (rest.take coreLen)) ++ String.mk (rest.drop coreLen)

/-- `processValue`: colour a YAML value by category — numbers and boolean
literals yellow, ISO timestamps and quoted strings green, everything else
unchanged. -/
def processValue (value : String) : String :=
  let t := jsTrim value
  if t == "" || t == "null" then value
  else if isNumLit t.data then wrapCore value chalkYellow
  else if t == "true" || t == "false" then wrapCore value chalkYellow
  else if hasDatePat t.data then String.mk (replaceFirstDate value.data)
  else if isQuotedLit t.data then wrapCore value chalkGreen
  else value

/-- `line.replace('-', chalk.yellow('-'))` — first occurrence only. -/
def replaceFirstDash : List Char → List Char
  | [] => []
  | c :: t =>
    if c == '-' then (chalkYellow "-").data ++ t
    else c :: replaceFirstDash t

/-- Colour one line: key segment cyan on `key: value` lines, list markers
yellow, other lines unchanged. -/
def colorLine (line : String) : String :=
  if line.data.any (fun c => c == ':') then
    let key := String.mk (line.data.takeWhile (fun c => c ≠ ':'))
    let value := String.mk ((line.data.dropWhile (fun c => c ≠ ':')).tail)
    chalkCyan (key ++ ":") ++ processValue value
  else if (trimChars line.data).head? == some '-' then
    String.mk (replaceFirstDash line.data)
  else line

/-- `yamlString.split('\n').map(colorLine).join('\n')`. -/
def colorizeYaml (s : String) : String :=
  joinLines ((splitLines s.data).map (fun cs => colorLine (String.mk cs)))

/-! ## `formatSessionYaml` (src/commands/call.js lines 12–119) and
`formatYaml` (src/commands/get.js lines 62–93) -/

/-- JavaScript falsiness. -/
def jsFalsy (v : JValue) : Bool := !jsTruthy v

/-- `Object.keys` (non-objects are modelled with no enumerable keys). -/
def objKeys : JValue → List String
  | .obj l => l.map (fun p => p.1)
  | _ => []

/-- Truthiness of `sessionInfo.log`. -/
def logFieldTruthy : JValue → Bool
  | .obj l =>
    match jsField l "log" with
    | some v => jsTruthy v
    | none => false
  | _ => false

/-- `formatSessionYaml(sessionInfo)`: `none` models passing `undefined`.
A falsy argument short-circuits to the "no information" result; otherwise
the document is timestamp-normalized, reorganized and rendered under a
title (the log-specific title when `log` is the single key).  Top-level
non-mapping documents pass through the reorganizer unchanged in the
model. -/
def formatSessionYaml (sessionInfo : Option JValue) : String :=
  match sessionInfo with
  | none => "No session information available"
  | some v =>
    if jsFalsy v then "No session information available"
    else
      let titleText :=
        if (objKeys v).length == 1 && logFieldTruthy v then
          "\n=== Call Session Log ===\n\n"
        else "\n=== Call Session Information ===\n\n"
      let v' := applyRep "" v
      let reorganizedDoc :=
        match v' with
        | .obj l => JValue.obj (reorganize l)
        | w => w
      chalkBoldBlue titleText ++ colorizeYaml (yamlStringify reorganizedDoc)

/-- `formatYaml(data, title)` from the `get` command: same rendering
without the normalize/reorganize passes. -/
def formatYaml (data : Option JValue) (title : String) : String :=
  match data with
  | none => "No data available"
  | some v =>
    if jsFalsy v then "No data available"
    else
      chalkBoldBlue ("\n=== " ++ title ++ " ===\n\n") ++
        colorizeYaml (yamlStringify v)

/-- The `--log` filtering step of `getCallInfo` (src/commands/call.js
lines 195–206): returns whether the missing-log warning was printed and
the document handed to `formatSessionYaml`.  A truthy `log` property
selects `\x7b log \x7d`; otherwise the full document is still shown.
(Property access on a `null` document would throw; the API returns JSON
documents, and non-mapping documents have no `log` property.) -/
def selectCallData (showLogOnly : Bool) (sessionInfo : JValue) : Bool × JValue :=
  if showLogOnly then
    match sessionInfo with
    | .obj l =>
      match jsField l "log" with
      | some lv =>
        if jsTruthy lv then (false, .obj [("log", lv)])
        else (true, sessionInfo)
      | none => (true, sessionInfo)
    | v => (true, v)
  else (false, sessionInfo)

/-- JavaScript falsiness of a possibly-absent value (`undefined` is
falsy). -/
def jsFalsyOpt : Option JValue → Bool
  | none => true
  | some v => jsFalsy v

/-! ## Statement-side notions used by the claims -/

/-- The specification's classification of a *simple* value: "not an array,
not a non-empty mapping". -/
def claimSimple : JValue → Bool
  | .arr _ => false
  | .obj l => l.isEmpty
  | _ => true

/-- The specification's classification of a *complex* value: "non-empty
array or non-empty mapping". -/
def claimComplex : JValue → Bool
  | .arr l => !l.isEmpty
  | .obj l => !l.isEmpty
  | _ => false

/-- The chronological key of an `events` entry as a natural number
(invalid keys, which cannot occur under the theorems' hypotheses, map
to the epoch). -/
def evKeyN (e : JValue) : Nat :=
  match eventKey e with
  | some dt => dt.enc
  | none => 0

/-- The chronological key of a `log` entry as a natural number. -/
def logKeyN (e : JValue) : Nat :=
  match logKey e with
  | some dt => dt.enc
  | none => 0

/-! # Helper lemmas -/

theorem jsGet_jsAssign_self (l : List (String × DomainRecord)) (k : String)
    (v : DomainRecord) : jsGet (jsAssign l k v) k = some v := by
  induction l with
  | nil => simp [jsAssign, jsGet]
  | cons p t ih =>
    obtain ⟨k', v'⟩ := p
    by_cases hk : k' = k
    · subst hk
      simp [jsAssign, jsGet]
    · simp only [jsAssign, if_neg hk, jsGet, ih]

theorem jsGet_jsAssign_ne (l : List (String × DomainRecord)) (k e : String)
    (v : DomainRecord) (h : e ≠ k) : jsGet (jsAssign l k v) e = jsGet l e := by
  induction l with
  | nil =>
    simp only [jsAssign, jsGet, if_neg (Ne.symm h)]
  | cons p t ih =>
    obtain ⟨k', v'⟩ := p
    by_cases hk : k' = k
    · subst hk
      simp only [jsAssign, if_pos rfl, jsGet, if_neg (Ne.symm h)]
    · simp only [jsAssign, if_neg hk, jsGet, ih]

theorem jsGet_filter_self (l : List (String × DomainRecord)) (d : String) :
    jsGet (l.filter (fun p => p.1 != d)) d = none := by
  induction l with
  | nil => simp [jsGet]
  | cons p t ih =>
    obtain ⟨k', v'⟩ := p
    by_cases h : k' = d
    · subst h
      simp [List.filter_cons, ih]
    · simp [List.filter_cons, bne_iff_ne, h, jsGet, ih]

theorem jsGet_filter_ne (l : List (String × DomainRecord)) (d e : String)
    (h : e ≠ d) : jsGet (l.filter (fun p => p.1 != d)) e = jsGet l e := by
  induction l with
  | nil => simp [jsGet]
  | cons p t ih =>
    obtain ⟨k', v'⟩ := p
    by_cases h' : k' = d
    · subst h'
      simp [List.filter_cons, jsGet, if_neg (Ne.symm h), ih]
    · simp [List.filter_cons, bne_iff_ne, h', jsGet, ih]

theorem digitVal_digitChar {n : Nat} (h : n < 10) :
    digitVal (digitChar n) = some n := by
  interval_cases n <;> rfl

theorem isDigit_digitChar {n : Nat} (h : n < 10) :
    (digitChar n).isDigit = true := by
  interval_cases n <;> rfl

theorem d2_digits {n : Nat} (h : n < 100) :
    d2 (digitChar (n / 10)) (digitChar (n % 10)) = some n := by
  unfold d2
  rw [digitVal_digitChar (by omega), digitVal_digitChar (by omega)]
  show some (n / 10 * 10 + n % 10) = some n
  congr 1
  omega

theorem d3_digits {n : Nat} (h : n < 1000) :
    d3 (digitChar (n / 100)) (digitChar (n / 10 % 10)) (digitChar (n % 10)) =
      some n := by
  unfold d3
  rw [digitVal_digitChar (by omega), digitVal_digitChar (by omega),
    digitVal_digitChar (by omega)]
  show some (n / 100 * 100 + n / 10 % 10 * 10 + n % 10) = some n
  congr 1
  omega

theorem d4_digits {n : Nat} (h : n < 10000) :
    d4 (digitChar (n / 1000)) (digitChar (n / 100 % 10))
      (digitChar (n / 10 % 10)) (digitChar (n % 10)) = some n := by
  unfold d4
  rw [digitVal_digitChar (by omega), digitVal_digitChar (by omega),
    digitVal_digitChar (by omega), digitVal_digitChar (by omega)]
  show some (n / 1000 * 1000 + n / 100 % 10 * 100 + n / 10 % 10 * 10 + n % 10) =
    some n
  congr 1
  omega

theorem daysInMonth_le (y m : Nat) : daysInMonth y m ≤ 31 := by
  unfold daysInMonth
  split_ifs <;> omega

theorem parseAfterYear_dash (y : Nat) (a b : Char) (rest : List Char) :
    parseAfterYear y ('-' :: a :: b :: rest) =
      (match d2 a b with
       | some m => if 1 ≤ m ∧ m ≤ 12 then parseAfterMonth y m rest else none
       | none => none) := rfl

theorem parseAfterMonth_dash (y m : Nat) (a b : Char) (rest : List Char) :
    parseAfterMonth y m ('-' :: a :: b :: rest) =
      (match d2 a b with
       | some d =>
           if 1 ≤ d ∧ d ≤ daysInMonth y m then parseAfterDay y m d rest else none
       | none => none) := rfl

theorem parseAfterDay_time (y m d : Nat) (h1 h2 n1 n2 : Char)
    (rest : List Char) :
    parseAfterDay y m d ('T' :: h1 :: h2 :: ':' :: n1 :: n2 :: rest) =
      (match d2 h1 h2, d2 n1 n2 with
       | some h, some mi => parseAfterMinute y m d h mi rest
       | _, _ => none) := rfl

theorem parseAfterMinute_colon (y m d h mi : Nat) (a b : Char)
    (rest : List Char) :
    parseAfterMinute y m d h mi (':' :: a :: b :: rest) =
      (match d2 a b with
       | some s => parseAfterSecond y m d h mi s rest
       | none => none) := rfl

theorem parseAfterSecond_dot (y m d h mi s : Nat) (a b c : Char)
    (rest : List Char) :
    parseAfterSecond y m d h mi s ('.' :: a :: b :: c :: rest) =
      (match d3 a b c with
       | some ms =>
         match parseZone rest with
         | some off => finalizeDT y m d h mi s ms off
         | none => none
       | none => none) := rfl

/-- Parsing inverts printing on every printable instant. -/
theorem parseDT_printDT (dt : DT) (h : ValidDT dt) :
    parseDT (printDT dt) = some dt := by
  obtain ⟨y, mo, da, ho, mi, se, msv⟩ := dt
  obtain ⟨h1, h2, h3, h4, h5, h6, h7, h8, h9⟩ := h
  dsimp only at h1 h2 h3 h4 h5 h6 h7 h8 h9
  have hda : da < 100 := by
    have := daysInMonth_le y mo
    omega
  unfold printDT parseDT
  dsimp only
  rw [d4_digits (by omega)]
  dsimp only
  rw [parseAfterYear_dash, d2_digits (by omega)]
  dsimp only
  rw [if_pos ⟨h2, h3⟩, parseAfterMonth_dash, d2_digits hda]
  dsimp only
  rw [if_pos ⟨h4, h5⟩, parseAfterDay_time, d2_digits (by omega),
    d2_digits (by omega)]
  dsimp only
  rw [parseAfterMinute_colon, d2_digits (by omega)]
  dsimp only
  rw [parseAfterSecond_dot, d3_digits (by omega)]
  dsimp only
  rw [show parseZone ['Z'] = some 0 from rfl]
  dsimp only
  unfold finalizeDT
  rw [if_pos ⟨h6, h7, h8⟩]
  unfold applyOffset
  rw [if_pos rfl]

theorem isHourTrunc_explicit (a b c d e f g h i j : Char) :
    isHourTrunc [a, b, c, d, '-', e, f, '-', g, h, 'T', i, j] =
      (a.isDigit && b.isDigit && c.isDigit && d.isDigit && e.isDigit &&
        f.isDigit && g.isDigit && h.isDigit && i.isDigit && j.isDigit) := rfl

theorem isMinuteTrunc_explicit (a b c d e f g h i j k l : Char) :
    isMinuteTrunc [a, b, c, d, '-', e, f, '-', g, h, 'T', i, j, ':', k, l] =
      (a.isDigit && b.isDigit && c.isDigit && d.isDigit && e.isDigit &&
        f.isDigit && g.isDigit && h.isDigit && i.isDigit && j.isDigit &&
        k.isDigit && l.isDigit) := rfl

theorem isSecondTrunc_explicit (a b c d e f g h i j k l m n : Char) :
    isSecondTrunc
        [a, b, c, d, '-', e, f, '-', g, h, 'T', i, j, ':', k, l, ':', m, n] =
      (a.isDigit && b.isDigit && c.isDigit && d.isDigit && e.isDigit &&
        f.isDigit && g.isDigit && h.isDigit && i.isDigit && j.isDigit &&
        k.isDigit && l.isDigit && m.isDigit && n.isDigit) := rfl

theorem isHourTrunc_hourTruncChars (y m d h : Nat) (hy : y ≤ 9999)
    (hm : m ≤ 99) (hd : d ≤ 99) (hh : h ≤ 99) :
    isHourTrunc (hourTruncChars y m d h) = true := by
  unfold hourTruncChars
  rw [isHourTrunc_explicit,
    isDigit_digitChar (show y / 1000 < 10 by omega),
    isDigit_digitChar (show y / 100 % 10 < 10 by omega),
    isDigit_digitChar (show y / 10 % 10 < 10 by omega),
    isDigit_digitChar (show y % 10 < 10 by omega),
    isDigit_digitChar (show m / 10 < 10 by omega),
    isDigit_digitChar (show m % 10 < 10 by omega),
    isDigit_digitChar (show d / 10 < 10 by omega),
    isDigit_digitChar (show d % 10 < 10 by omega),
    isDigit_digitChar (show h / 10 < 10 by omega),
    isDigit_digitChar (show h % 10 < 10 by omega)]
  rfl

theorem isMinuteTrunc_minuteTruncChars (y m d h mi : Nat) (hy : y ≤ 9999)
    (hm : m ≤ 99) (hd : d ≤ 99) (hh : h ≤ 99) (hmi : mi ≤ 99) :
    isMinuteTrunc (minuteTruncChars y m d h mi) = true := by
  unfold minuteTruncChars
  rw [isMinuteTrunc_explicit,
    isDigit_digitChar (show y / 1000 < 10 by omega),
    isDigit_digitChar (show y / 100 % 10 < 10 by omega),
    isDigit_digitChar (show y / 10 % 10 < 10 by omega),
    isDigit_digitChar (show y % 10 < 10 by omega),
    isDigit_digitChar (show m / 10 < 10 by omega),
    isDigit_digitChar (show m % 10 < 10 by omega),
    isDigit_digitChar (show d / 10 < 10 by omega),
    isDigit_digitChar (show d % 10 < 10 by omega),
    isDigit_digitChar (show h / 10 < 10 by omega),
    isDigit_digitChar (show h % 10 < 10 by omega),
    isDigit_digitChar (show mi / 10 < 10 by omega),
    isDigit_digitChar (show mi % 10 < 10 by omega)]
  rfl

theorem isSecondTrunc_secondTruncChars (y m d h mi s : Nat) (hy : y ≤ 9999)
    (hm : m ≤ 99) (hd : d ≤ 99) (hh : h ≤ 99) (hmi : mi ≤ 99) (hs : s ≤ 99) :
    isSecondTrunc (secondTruncChars y m d h mi s) = true := by
  unfold secondTruncChars
  rw [isSecondTrunc_explicit,
    isDigit_digitChar (show y / 1000 < 10 by omega),
    isDigit_digitChar (show y / 100 % 10 < 10 by omega),
    isDigit_digitChar (show y / 10 % 10 < 10 by omega),
    isDigit_digitChar (show y % 10 < 10 by omega),
    isDigit_digitChar (show m / 10 < 10 by omega),
    isDigit_digitChar (show m % 10 < 10 by omega),
    isDigit_digitChar (show d / 10 < 10 by omega),
    isDigit_digitChar (show d % 10 < 10 by omega),
    isDigit_digitChar (show h / 10 < 10 by omega),
    isDigit_digitChar (show h % 10 < 10 by omega),
    isDigit_digitChar (show mi / 10 < 10 by omega),
    isDigit_digitChar (show mi % 10 < 10 by omega),
    isDigit_digitChar (show s / 10 < 10 by omega),
    isDigit_digitChar (show s % 10 < 10 by omega)]
  rfl

theorem isHourTrunc_printDT (dt : DT) : isHourTrunc (printDT dt) = false := rfl

theorem isMinuteTrunc_printDT (dt : DT) :
    isMinuteTrunc (printDT dt) = false := rfl

theorem isSecondTrunc_printDT (dt : DT) :
    isSecondTrunc (printDT dt) = false := rfl

theorem isHourTrunc_minuteTruncChars (y m d h mi : Nat) :
    isHourTrunc (minuteTruncChars y m d h mi) = false := rfl

theorem isHourTrunc_secondTruncChars (y m d h mi s : Nat) :
    isHourTrunc (secondTruncChars y m d h mi s) = false := rfl

theorem isMinuteTrunc_secondTruncChars (y m d h mi s : Nat) :
    isMinuteTrunc (secondTruncChars y m d h mi s) = false := rfl

theorem hourTrunc_append (y m d h : Nat) :
    hourTruncChars y m d h ++ ":00:00.000Z".data =
      printDT ⟨y, m, d, h, 0, 0, 0⟩ := by
  unfold hourTruncChars printDT
  dsimp only
  simp only [List.cons_append, List.nil_append, Nat.zero_div, Nat.zero_mod]
  rw [show digitChar 0 = '0' from rfl]

theorem minuteTrunc_append (y m d h mi : Nat) :
    minuteTruncChars y m d h mi ++ ":00.000Z".data =
      printDT ⟨y, m, d, h, mi, 0, 0⟩ := by
  unfold minuteTruncChars printDT
  dsimp only
  simp only [List.cons_append, List.nil_append, Nat.zero_div, Nat.zero_mod]
  rw [show digitChar 0 = '0' from rfl]

theorem secondTrunc_append (y m d h mi s : Nat) :
    secondTruncChars y m d h mi s ++ ".000Z".data =
      printDT ⟨y, m, d, h, mi, s, 0⟩ := by
  unfold secondTruncChars printDT
  dsimp only
  simp only [List.cons_append, List.nil_append, Nat.zero_div, Nat.zero_mod]
  rw [show digitChar 0 = '0' from rfl]

theorem augmentTrunc_hour (y m d h : Nat) (hy : y ≤ 9999) (hm : m ≤ 99)
    (hd : d ≤ 99) (hh : h ≤ 99) :
    augmentTrunc (hourTruncChars y m d h) = printDT ⟨y, m, d, h, 0, 0, 0⟩ := by
  unfold augmentTrunc
  rw [isHourTrunc_hourTruncChars y m d h hy hm hd hh, if_pos rfl]
  exact hourTrunc_append y m d h

theorem augmentTrunc_minute (y m d h mi : Nat) (hy : y ≤ 9999) (hm : m ≤ 99)
    (hd : d ≤ 99) (hh : h ≤ 99) (hmi : mi ≤ 99) :
    augmentTrunc (minuteTruncChars y m d h mi) =
      printDT ⟨y, m, d, h, mi, 0, 0⟩ := by
  unfold augmentTrunc
  rw [isHourTrunc_minuteTruncChars,
    isMinuteTrunc_minuteTruncChars y m d h mi hy hm hd hh hmi,
    if_neg (by decide), if_pos rfl]
  exact minuteTrunc_append y m d h mi

theorem augmentTrunc_second (y m d h mi s : Nat) (hy : y ≤ 9999) (hm : m ≤ 99)
    (hd : d ≤ 99) (hh : h ≤ 99) (hmi : mi ≤ 99) (hs : s ≤ 99) :
    augmentTrunc (secondTruncChars y m d h mi s) =
      printDT ⟨y, m, d, h, mi, s, 0⟩ := by
  unfold augmentTrunc
  rw [isHourTrunc_secondTruncChars, isMinuteTrunc_secondTruncChars,
    isSecondTrunc_secondTruncChars y m d h mi s hy hm hd hh hmi hs,
    if_neg (by decide), if_neg (by decide), if_pos rfl]
  exact secondTrunc_append y m d h mi s

theorem augmentTrunc_printDT (dt : DT) :
    augmentTrunc (printDT dt) = printDT dt := by
  unfold augmentTrunc
  rw [isHourTrunc_printDT, isMinuteTrunc_printDT, isSecondTrunc_printDT,
    if_neg (by decide), if_neg (by decide), if_neg (by decide)]

/-- C1: `addOrUpdate(domainName, apiKey)` followed by `load()` yields a
configuration whose domains mapping holds exactly the record
`\x7b apiKey \x7d` under `domainName`; a second `addOrUpdate` with the same
name and a different key replaces that record's key while every other
entry is unchanged. -/
theorem claim_C1 :
    (∀ fs d k, storeLookup (addDomain fs d k) d = some ⟨k⟩) ∧
    (∀ fs d k₁ k₂ e, k₁ ≠ k₂ → e ≠ d →
      storeLookup (addDomain (addDomain fs d k₁) d k₂) d = some ⟨k₂⟩ ∧
      storeLookup (addDomain (addDomain fs d k₁) d k₂) e =
        storeLookup (addDomain fs d k₁) e) := by
  constructor
  · intro fs d k
    simp [storeLookup, addDomain, loadConfig, jsGet_jsAssign_self]
  · intro fs d k₁ k₂ e _ he
    refine ⟨?_, ?_⟩
    · simp [storeLookup, addDomain, loadConfig, jsGet_jsAssign_self]
    · simp [storeLookup, addDomain, loadConfig, jsGet_jsAssign_ne _ _ _ _ he]

/-- Witness for C1 at concrete inputs. -/
theorem claim_C1_witness :
    storeLookup (addDomain .absent "example.com" "key1") "example.com" =
      some ⟨"key1"⟩ ∧
    storeLookup
        (addDomain (addDomain (.store [("other.com", ⟨"o"⟩)]) "example.com" "key1")
          "example.com" "key2") "example.com" = some ⟨"key2"⟩ ∧
    storeLookup
        (addDomain (addDomain (.store [("other.com", ⟨"o"⟩)]) "example.com" "key1")
          "example.com" "key2") "other.com" =
      storeLookup (addDomain (.store [("other.com", ⟨"o"⟩)]) "example.com" "key1")
        "other.com" :=
  ⟨claim_C1.1 _ _ _,
   (claim_C1.2 (.store [("other.com", ⟨"o"⟩)]) "example.com" "key1" "key2"
      "other.com" (by decide) (by decide)).1,
   (claim_C1.2 (.store [("other.com", ⟨"o"⟩)]) "example.com" "key1" "key2"
      "other.com" (by decide) (by decide)).2⟩

/-- C2: `remove` on an absent domain reports not-found and performs no
save, leaving the persisted store unchanged; on a present domain it
deletes exactly that entry and saves, preserving every other entry. -/
theorem claim_C2 :
    (∀ fs d, storeLookup fs d = none → deleteDomain fs d = (fs, ⟨true, false⟩)) ∧
    (∀ fs d ds v, (loadConfig fs).1.domains = some ds → jsGet ds d = some v →
      deleteDomain fs d =
        (.store (ds.filter (fun p => p.1 != d)), ⟨false, true⟩) ∧
      storeLookup (deleteDomain fs d).1 d = none ∧
      ∀ e, e ≠ d → storeLookup (deleteDomain fs d).1 e = jsGet ds e) := by
  constructor
  · intro fs d h
    unfold deleteDomain
    unfold storeLookup at h
    rcases hd : (loadConfig fs).1.domains with _ | ds
    · simp [hd]
    · rw [hd] at h
      have h' : jsGet ds d = none := h
      simp [hd, h']
  · intro fs d ds v hd hv
    have hdel : deleteDomain fs d =
        (.store (ds.filter (fun p => p.1 != d)), ⟨false, true⟩) := by
      unfold deleteDomain
      simp only [hd]
      rw [hv]
    refine ⟨hdel, ?_, ?_⟩
    · rw [hdel]
      simp [storeLookup, loadConfig, jsGet_filter_self]
    · intro e he
      rw [hdel]
      simp [storeLookup, loadConfig, jsGet_filter_ne _ _ _ he]

/-- Witness for C2 at concrete inputs: an absent domain, then a present
one in a two-entry store. -/
theorem claim_C2_witness :
    deleteDomain (.store [("a.com", ⟨"x"⟩)]) "missing.com" =
      (.store [("a.com", ⟨"x"⟩)], ⟨true, false⟩) ∧
    deleteDomain (.store [("a.com", ⟨"x"⟩), ("b.com", ⟨"y"⟩)]) "a.com" =
      (.store [("b.com", ⟨"y"⟩)], ⟨false, true⟩) ∧
    storeLookup
      (deleteDomain (.store [("a.com", ⟨"x"⟩), ("b.com", ⟨"y"⟩)]) "a.com").1
      "b.com" = jsGet [("a.com", ⟨"x"⟩), ("b.com", ⟨"y"⟩)] "b.com" :=
  ⟨claim_C2.1 _ "missing.com" (by decide),
   (claim_C2.2 (.store [("a.com", ⟨"x"⟩), ("b.com", ⟨"y"⟩)]) "a.com" _ ⟨"x"⟩
      rfl (by decide)).1,
   (claim_C2.2 (.store [("a.com", ⟨"x"⟩), ("b.com", ⟨"y"⟩)]) "a.com" _ ⟨"x"⟩
      rfl (by decide)).2.2 "b.com" (by decide)⟩

/-- C4: when the backing file is absent, empty, or fails to parse,
`load()` returns a configuration with an empty domains mapping; the parse
failure (and only it) is logged, and `load` is a total function — it
never raises. -/
theorem claim_C4 (fs : FileState)
    (h : fs = .absent ∨ fs = .emptyFile ∨ fs = .malformed) :
    (loadConfig fs).1 = ⟨some []⟩ ∧ ((loadConfig fs).2 = true ↔ fs = .malformed) := by
  rcases h with h | h | h <;> subst h <;> simp [loadConfig]

/-- Witness for C4 at the malformed file state. -/
theorem claim_C4_witness :
    (loadConfig .malformed).1 = ⟨some []⟩ ∧
      ((loadConfig .malformed).2 = true ↔ FileState.malformed = .malformed) :=
  claim_C4 .malformed (Or.inr (Or.inr rfl))

/-- C3 counterexample: with `--subscriber` and `--trunk` both supplied and
the domain present in the store, the command's trace loads the
configuration store *before* reporting the usage error — the claim's
"aborts before any access to the configuration store" is false. -/
theorem claim_C3_counterexample :
    resourceOptionsCount ⟨some "example.com", some none, none, some none, none⟩ > 1 ∧
    getDomainEvents ⟨some "example.com", some none, none, some none, none⟩
        (.store [("example.com", ⟨"secret"⟩)]) =
      [.loadStore, .usageErrorMultipleResources] ∧
    GetEvent.loadStore ∈
      getDomainEvents ⟨some "example.com", some none, none, some none, none⟩
        (.store [("example.com", ⟨"secret"⟩)]) := by
  decide

/-- C3 (amended): when more than one resource-type flag is supplied, no
network request is ever issued, and — when the domain option is present
and found in the store — the usage error is reported immediately after the
configuration store has been loaded, aborting the command. -/
theorem claim_C3_amended (o : GetOptions) (fs : FileState)
    (hmulti : resourceOptionsCount o > 1) :
    (∀ rt, GetEvent.apiRequest rt ∉ getDomainEvents o fs) ∧
    (∀ d ds, o.domain = some d → (loadConfig fs).1.domains = some ds →
      (jsGet ds d).isSome →
      getDomainEvents o fs = [.loadStore, .usageErrorMultipleResources]) := by
  constructor
  · intro rt
    unfold getDomainEvents
    rcases hdom : o.domain with _ | d
    · simp
    · rcases hd : (loadConfig fs).1.domains with _ | ds
      · simp [hd]
      · rcases hg : jsGet ds d with _ | v
        · simp [hd, hg]
        · simp [hd, hg, hmulti]
  · intro d ds hdom hds hget
    unfold getDomainEvents
    rw [hdom, hds]
    rcases hg : jsGet ds d with _ | v
    · rw [hg] at hget
      simp at hget
    · simp [hg, hmulti]

/-- Witness for the amended C3 at concrete inputs. -/
theorem claim_C3_amended_witness :
    getDomainEvents ⟨some "d", some none, some none, none, none⟩
        (.store [("d", ⟨"k"⟩)]) =
      [.loadStore, .usageErrorMultipleResources] :=
  (claim_C3_amended ⟨some "d", some none, some none, none, none⟩
      (.store [("d", ⟨"k"⟩)]) (by decide)).2 "d" [("d", ⟨"k"⟩)] rfl rfl
    (by decide)

/-- C5: the timestamp normalizer (a) completes hour-, minute- and
second-truncated inputs whose completion parses as a date into the
canonical full ISO-8601 form — in particular every valid `YYYY-MM-DDTHH`
becomes itself plus `:00:00.000Z`; (b) leaves every complete canonical ISO
instant unchanged; and (c) leaves any string whose (possibly repaired)
form fails to parse unchanged, raising no error — with the three concrete
cases `2025-04-01T02`, `2025-04-01T02:15:30.500Z` and `not-a-date`. -/
theorem claim_C5 :
    (∀ y m d h : Nat, y ≤ 9999 → 1 ≤ m → m ≤ 12 → 1 ≤ d →
      d ≤ daysInMonth y m → h ≤ 23 →
      normalizeTimestamp (hourTruncStr y m d h) =
        hourTruncStr y m d h ++ ":00:00.000Z" ∧
      normalizeTimestamp (hourTruncStr y m d h) =
        toISOString ⟨y, m, d, h, 0, 0, 0⟩) ∧
    (∀ y m d h mi : Nat, y ≤ 9999 → 1 ≤ m → m ≤ 12 → 1 ≤ d →
      d ≤ daysInMonth y m → h ≤ 23 → mi ≤ 59 →
      normalizeTimestamp (minuteTruncStr y m d h mi) =
        minuteTruncStr y m d h mi ++ ":00.000Z") ∧
    (∀ y m d h mi s : Nat, y ≤ 9999 → 1 ≤ m → m ≤ 12 → 1 ≤ d →
      d ≤ daysInMonth y m → h ≤ 23 → mi ≤ 59 → s ≤ 59 →
      normalizeTimestamp (secondTruncStr y m d h mi s) =
        secondTruncStr y m d h mi s ++ ".000Z") ∧
    (∀ dt : DT, ValidDT dt →
      normalizeTimestamp (toISOString dt) = toISOString dt) ∧
    (∀ s : String, parseDT (augmentTrunc s.data) = none →
      normalizeTimestamp s = s) ∧
    normalizeTimestamp "2025-04-01T02" = "2025-04-01T02:00:00.000Z" ∧
    normalizeTimestamp "2025-04-01T02:15:30.500Z" = "2025-04-01T02:15:30.500Z" ∧
    normalizeTimestamp "not-a-date" = "not-a-date" := by
  refine ⟨?_, ?_, ?_, ?_, ?_, by decide, by decide, by decide⟩
  · intro y m d h hy hm1 hm2 hd1 hd2 hh
    have hv : ValidDT ⟨y, m, d, h, 0, 0, 0⟩ := by
      unfold ValidDT
      dsimp only
      exact ⟨hy, hm1, hm2, hd1, hd2, hh, by omega, by omega, by omega⟩
    have hd99 : d ≤ 99 := by
      have := daysInMonth_le y m
      omega
    have hmain : normalizeTimestamp (hourTruncStr y m d h) =
        toISOString ⟨y, m, d, h, 0, 0, 0⟩ := by
      unfold normalizeTimestamp hourTruncStr
      rw [show (String.mk (hourTruncChars y m d h)).data =
            hourTruncChars y m d h from rfl,
        augmentTrunc_hour y m d h hy (by omega) (by omega) (by omega),
        parseDT_printDT _ hv]
    refine ⟨?_, hmain⟩
    rw [hmain]
    unfold toISOString
    rw [← hourTrunc_append y m d h]
    rfl
  · intro y m d h mi hy hm1 hm2 hd1 hd2 hh hmi
    have hv : ValidDT ⟨y, m, d, h, mi, 0, 0⟩ := by
      unfold ValidDT
      dsimp only
      exact ⟨hy, hm1, hm2, hd1, hd2, hh, hmi, by omega, by omega⟩
    have hd99 : d ≤ 99 := by
      have := daysInMonth_le y m
      omega
    have hmain : normalizeTimestamp (minuteTruncStr y m d h mi) =
        toISOString ⟨y, m, d, h, mi, 0, 0⟩ := by
      unfold normalizeTimestamp minuteTruncStr
      rw [show (String.mk (minuteTruncChars y m d h mi)).data =
            minuteTruncChars y m d h mi from rfl,
        augmentTrunc_minute y m d h mi hy (by omega) (by omega) (by omega)
          (by omega),
        parseDT_printDT _ hv]
    rw [hmain]
    unfold toISOString
    rw [← minuteTrunc_append y m d h mi]
    rfl
  · intro y m d h mi s hy hm1 hm2 hd1 hd2 hh hmi hs
    have hv : ValidDT ⟨y, m, d, h, mi, s, 0⟩ := by
      unfold ValidDT
      dsimp only
      exact ⟨hy, hm1, hm2, hd1, hd2, hh, hmi, hs, by omega⟩
    have hd99 : d ≤ 99 := by
      have := daysInMonth_le y m
      omega
    have hmain : normalizeTimestamp (secondTruncStr y m d h mi s) =
        toISOString ⟨y, m, d, h, mi, s, 0⟩ := by
      unfold normalizeTimestamp secondTruncStr
      rw [show (String.mk (secondTruncChars y m d h mi s)).data =
            secondTruncChars y m d h mi s from rfl,
        augmentTrunc_second y m d h mi s hy (by omega) (by omega) (by omega)
          (by omega) (by omega),
        parseDT_printDT _ hv]
    rw [hmain]
    unfold toISOString
    rw [← secondTrunc_append y m d h mi s]
    rfl
  · intro dt hv
    unfold normalizeTimestamp
    rw [show (toISOString dt).data = printDT dt from rfl, augmentTrunc_printDT,
      parseDT_printDT dt hv]
  · intro s h
    unfold normalizeTimestamp
    rw [h]

/-- Witness for C5 at concrete inputs. -/
theorem claim_C5_witness :
    normalizeTimestamp (hourTruncStr 2025 4 1 2) =
      hourTruncStr 2025 4 1 2 ++ ":00:00.000Z" ∧
    normalizeTimestamp (minuteTruncStr 2025 4 1 2 15) =
      minuteTruncStr 2025 4 1 2 15 ++ ":00.000Z" ∧
    normalizeTimestamp (secondTruncStr 2025 4 1 2 15 30) =
      secondTruncStr 2025 4 1 2 15 30 ++ ".000Z" ∧
    normalizeTimestamp (toISOString ⟨2025, 4, 1, 2, 15, 30, 500⟩) =
      toISOString ⟨2025, 4, 1, 2, 15, 30, 500⟩ ∧
    normalizeTimestamp "nope" = "nope" :=
  ⟨(claim_C5.1 2025 4 1 2 (by decide) (by decide) (by decide) (by decide)
      (by decide) (by decide)).1,
   claim_C5.2.1 2025 4 1 2 15 (by decide) (by decide) (by decide) (by decide)
      (by decide) (by decide) (by decide),
   claim_C5.2.2.1 2025 4 1 2 15 30 (by decide) (by decide) (by decide)
      (by decide) (by decide) (by decide) (by decide) (by decide),
   claim_C5.2.2.2.1 ⟨2025, 4, 1, 2, 15, 30, 500⟩ (by decide),
   claim_C5.2.2.2.2.1 "nope" (by decide)⟩

theorem stableInsert_perm {α : Type} (le : α → α → Bool) (a : α) (l : List α) :
    (stableInsert le a l).Perm (a :: l) := by
  induction l with
  | nil => rfl
  | cons b t ih =>
    unfold stableInsert
    by_cases h : le a b = true
    · rw [if_pos h]
    · rw [if_neg h]
      exact (ih.cons b).trans (List.Perm.swap a b t)

theorem jsSortBy_perm {α : Type} (le : α → α → Bool) (l : List α) :
    (jsSortBy le l).Perm l := by
  induction l with
  | nil => rfl
  | cons a t ih =>
    unfold jsSortBy
    exact (stableInsert_perm le a (jsSortBy le t)).trans (ih.cons a)

theorem pairwise_stableInsert {α : Type} (le : α → α → Bool)
    (htot : ∀ a b, (le a b || le b a) = true)
    (htrans : ∀ a b c, le a b = true → le b c = true → le a c = true)
    (a : α) (l : List α) (hl : List.Pairwise (fun x y => le x y = true) l) :
    List.Pairwise (fun x y => le x y = true) (stableInsert le a l) := by
  induction l with
  | nil => simp [stableInsert]
  | cons b t ih =>
    rw [List.pairwise_cons] at hl
    obtain ⟨hb, ht⟩ := hl
    unfold stableInsert
    by_cases h : le a b = true
    · rw [if_pos h]
      refine List.Pairwise.cons ?_ (List.Pairwise.cons hb ht)
      intro x hx
      rcases List.mem_cons.mp hx with rfl | hx
      · exact h
      · exact htrans a b x h (hb x hx)
    · rw [if_neg h]
      have hba : le b a = true := by
        have h2 := htot a b
        rw [Bool.or_eq_true] at h2
        rcases h2 with h' | h'
        · exact absurd h' h
        · exact h'
      refine List.Pairwise.cons ?_ (ih ht)
      intro x hx
      have hx' := (stableInsert_perm le a t).mem_iff.mp hx
      rcases List.mem_cons.mp hx' with rfl | hx'
      · exact hba
      · exact hb x hx'

theorem jsSortBy_pairwise {α : Type} (le : α → α → Bool)
    (htot : ∀ a b, (le a b || le b a) = true)
    (htrans : ∀ a b c, le a b = true → le b c = true → le a c = true)
    (l : List α) :
    List.Pairwise (fun x y => le x y = true) (jsSortBy le l) := by
  induction l with
  | nil => simp [jsSortBy]
  | cons a t ih =>
    unfold jsSortBy
    exact pairwise_stableInsert le htot htrans a (jsSortBy le t) ih

theorem stableInsert_congr {α : Type} (le le' : α → α → Bool) (a : α)
    (l : List α) (h : ∀ b ∈ l, le a b = le' a b) :
    stableInsert le a l = stableInsert le' a l := by
  induction l with
  | nil => rfl
  | cons b t ih =>
    unfold stableInsert
    rw [h b (List.mem_cons_self b t)]
    by_cases hb : le' a b = true
    · rw [if_pos hb, if_pos hb]
    · rw [if_neg hb, if_neg hb,
        ih (fun c hc => h c (List.mem_cons_of_mem b hc))]

theorem jsSortBy_congr {α : Type} (le le' : α → α → Bool) (l : List α)
    (h : ∀ a ∈ l, ∀ b ∈ l, le a b = le' a b) :
    jsSortBy le l = jsSortBy le' l := by
  induction l with
  | nil => rfl
  | cons a t ih =>
    unfold jsSortBy
    rw [ih (fun x hx y hy =>
      h x (List.mem_cons_of_mem a hx) y (List.mem_cons_of_mem a hy))]
    refine stableInsert_congr le le' a (jsSortBy le' t) ?_
    intro b hb
    have hb' := (jsSortBy_perm le' t).mem_iff.mp hb
    exact h a (List.mem_cons_self a t) b (List.mem_cons_of_mem a hb')

theorem eventLe_eq {a b : JValue} (ha : (eventKey a).isSome = true)
    (hb : (eventKey b).isSome = true) :
    eventLe a b = decide (evKeyN a ≤ evKeyN b) := by
  obtain ⟨x, hx⟩ := Option.isSome_iff_exists.mp ha
  obtain ⟨y, hy⟩ := Option.isSome_iff_exists.mp hb
  unfold eventLe evKeyN
  rw [hx, hy]
  unfold cmpKey
  dsimp only
  by_cases hle : x.enc ≤ y.enc
  · rw [decide_eq_true hle]
    have hgt : compare x.enc y.enc ≠ Ordering.gt := by
      simp only [ne_eq, Nat.compare_eq_gt]
      omega
    cases hc : compare x.enc y.enc
    · rfl
    · rfl
    · exact absurd hc hgt
  · rw [decide_eq_false hle]
    have hgt : compare x.enc y.enc = Ordering.gt := by
      simp only [Nat.compare_eq_gt]
      omega
    rw [hgt]
    rfl

theorem logLe_eq {a b : JValue} (ha : (logKey a).isSome = true)
    (hb : (logKey b).isSome = true) :
    logLe a b = decide (logKeyN a ≤ logKeyN b) := by
  obtain ⟨x, hx⟩ := Option.isSome_iff_exists.mp ha
  obtain ⟨y, hy⟩ := Option.isSome_iff_exists.mp hb
  unfold logLe logKeyN
  rw [hx, hy]
  unfold cmpKey
  dsimp only
  by_cases hle : x.enc ≤ y.enc
  · rw [decide_eq_true hle]
    have hgt : compare x.enc y.enc ≠ Ordering.gt := by
      simp only [ne_eq, Nat.compare_eq_gt]
      omega
    cases hc : compare x.enc y.enc
    · rfl
    · rfl
    · exact absurd hc hgt
  · rw [decide_eq_false hle]
    have hgt : compare x.enc y.enc = Ordering.gt := by
      simp only [Nat.compare_eq_gt]
      omega
    rw [hgt]
    rfl

theorem claimSimple_not_complex {v : JValue} (h : claimSimple v = true) :
    isComplexVal v = false := by
  cases v <;> simp_all [claimSimple, isComplexVal]

theorem claimComplex_complex {v : JValue} (h : claimComplex v = true) :
    isComplexVal v = true := by
  cases v <;> simp_all [claimComplex, isComplexVal]

/-- C6: the reorganizer keeps the key set (as a permutation), emits the
code-simple keys first and the code-complex keys second, each group in its
original relative order; hence every claim-simple key appears before every
claim-complex key, and the example `\x7b b: [1,2], a: 5, c: \x7bx:1\x7d \x7d`
comes out in key order `a, b, c`. -/
theorem claim_C6 (doc : List (String × JValue)) :
    ((reorganize doc).map Prod.fst =
      (doc.filter (fun p => !isComplexVal p.2)).map Prod.fst ++
        (doc.filter (fun p => isComplexVal p.2)).map Prod.fst) ∧
    ((reorganize doc).map Prod.fst).Perm (doc.map Prod.fst) ∧
    (∀ k1 v1 k2 v2, (k1, v1) ∈ doc → (k2, v2) ∈ doc → claimSimple v1 = true →
      claimComplex v2 = true → List.Sublist [k1, k2] ((reorganize doc).map Prod.fst)) ∧
    (reorganize [("b", .arr [.num 1, .num 2]), ("a", .num 5),
        ("c", .obj [("x", .num 1)])]).map Prod.fst = ["a", "b", "c"] := by
  have h1 : (reorganize doc).map Prod.fst =
      (doc.filter (fun p => !isComplexVal p.2)).map Prod.fst ++
        (doc.filter (fun p => isComplexVal p.2)).map Prod.fst := by
    simp [reorganize, List.map_map, Function.comp]
  refine ⟨h1, ?_, ?_, by decide⟩
  · rw [h1, ← List.map_append]
    have hp := List.filter_append_perm (fun p => !isComplexVal p.2) doc
    rw [show (fun (x : String × JValue) => !!isComplexVal x.2) =
        (fun (x : String × JValue) => isComplexVal x.2) from by
      funext x
      simp] at hp
    exact hp.map Prod.fst
  · intro k1 v1 k2 v2 h1m h2m hs hc
    rw [h1]
    have hk1 : k1 ∈ (doc.filter (fun p => !isComplexVal p.2)).map Prod.fst := by
      refine List.mem_map.mpr ⟨(k1, v1), ?_, rfl⟩
      exact List.mem_filter.mpr ⟨h1m, by simp [claimSimple_not_complex hs]⟩
    have hk2 : k2 ∈ (doc.filter (fun p => isComplexVal p.2)).map Prod.fst := by
      refine List.mem_map.mpr ⟨(k2, v2), ?_, rfl⟩
      exact List.mem_filter.mpr ⟨h2m, claimComplex_complex hc⟩
    exact (List.singleton_sublist.mpr hk1).append (List.singleton_sublist.mpr hk2)

/-- Witness for C6: in the example document, the simple key `a` appears
before the complex key `b`. -/
theorem claim_C6_witness :
    List.Sublist [("a" : String), "b"]
      ((reorganize [("b", JValue.arr [.num 1, .num 2]), ("a", JValue.num 5),
        ("c", JValue.obj [("x", JValue.num 1)])]).map Prod.fst) :=
  (claim_C6 _).2.2.1 "a" (JValue.num 5) "b" (JValue.arr [.num 1, .num 2])
    (List.Mem.tail _ (List.Mem.head _)) (List.Mem.head _) (by decide) (by decide)

/-- C7: for documents whose `events`/`log` entries all have well-formed
keys (a parseable `timestamp`/`time` string, or none at all, which counts
as the epoch), the reorganizer's sort returns a permutation of the array
that is ascending in the chronological key; entries without the field get
the epoch key; and the two-entry example comes out reversed. -/
theorem claim_C7 :
    (∀ es : List JValue, (∀ e ∈ es, (eventKey e).isSome = true) →
      (jsSortEvents es).Perm es ∧
      List.Pairwise (fun a b => evKeyN a ≤ evKeyN b) (jsSortEvents es)) ∧
    (∀ ls : List JValue, (∀ e ∈ ls, (logKey e).isSome = true) →
      (jsSortLog ls).Perm ls ∧
      List.Pairwise (fun a b => logKeyN a ≤ logKeyN b) (jsSortLog ls)) ∧
    (∀ l, jsField l "timestamp" = none →
      eventKey (.obj l) = some epochDT) ∧
    (∀ l, jsField l "timestamp" = none → jsField l "time" = none →
      logKey (.obj l) = some epochDT) ∧
    reorganize [("events",
        JValue.arr [.obj [("timestamp", .str "2025-01-02T00:00:00Z")],
          .obj [("timestamp", .str "2025-01-01T00:00:00Z")]])] =
      [("events",
        JValue.arr [.obj [("timestamp", .str "2025-01-01T00:00:00Z")],
          .obj [("timestamp", .str "2025-01-02T00:00:00Z")]])] := by
  have htot : ∀ key : JValue → Nat, ∀ a b : JValue,
      (decide (key a ≤ key b) || decide (key b ≤ key a)) = true := by
    intro key a b
    rcases Nat.le_total (key a) (key b) with h | h <;> simp [h]
  have htrans : ∀ key : JValue → Nat, ∀ a b c : JValue,
      decide (key a ≤ key b) = true → decide (key b ≤ key c) = true →
      decide (key a ≤ key c) = true := by
    intro key a b c hab hbc
    simp only [decide_eq_true_eq] at hab hbc ⊢
    omega
  refine ⟨?_, ?_, ?_, ?_, rfl⟩
  · intro es hkeys
    refine ⟨jsSortBy_perm eventLe es, ?_⟩
    have hcongr : jsSortBy eventLe es =
        jsSortBy (fun a b => decide (evKeyN a ≤ evKeyN b)) es :=
      jsSortBy_congr _ _ es (fun a ha b hb => eventLe_eq (hkeys a ha) (hkeys b hb))
    unfold jsSortEvents
    rw [hcongr]
    exact (jsSortBy_pairwise _ (htot evKeyN) (htrans evKeyN) es).imp
      (fun h => of_decide_eq_true h)
  · intro ls hkeys
    refine ⟨jsSortBy_perm logLe ls, ?_⟩
    have hcongr : jsSortBy logLe ls =
        jsSortBy (fun a b => decide (logKeyN a ≤ logKeyN b)) ls :=
      jsSortBy_congr _ _ ls (fun a ha b hb => logLe_eq (hkeys a ha) (hkeys b hb))
    unfold jsSortLog
    rw [hcongr]
    exact (jsSortBy_pairwise _ (htot logKeyN) (htrans logKeyN) ls).imp
      (fun h => of_decide_eq_true h)
  · intro l h
    unfold eventKey truthyField
    dsimp only
    rw [h]
  · intro l h h'
    unfold logKey truthyField
    dsimp only
    rw [h, h']

/-- Witness for C7: a two-entry events array (one entry missing its
timestamp) and a one-entry log array. -/
theorem claim_C7_witness :
    ((jsSortEvents [JValue.obj [("timestamp", .str "2025-01-02T00:00:00Z")],
        JValue.obj []]).Perm
      [JValue.obj [("timestamp", .str "2025-01-02T00:00:00Z")],
        JValue.obj []] ∧
      List.Pairwise (fun a b => evKeyN a ≤ evKeyN b)
        (jsSortEvents [JValue.obj [("timestamp", .str "2025-01-02T00:00:00Z")],
          JValue.obj []])) ∧
    ((jsSortLog [JValue.obj [("time", .str "2025-01-01T00:00:00Z")]]).Perm
      [JValue.obj [("time", .str "2025-01-01T00:00:00Z")]] ∧
      List.Pairwise (fun a b => logKeyN a ≤ logKeyN b)
        (jsSortLog [JValue.obj [("time", .str "2025-01-01T00:00:00Z")]])) :=
  ⟨claim_C7.1 _ (by decide), claim_C7.2.1 _ (by decide)⟩

/-- C8 counterexample: an *empty* input document (the empty mapping) is
truthy in JavaScript, so the renderer does not return the "no
information" result for it — it renders the empty structure `\x7b\x7d`
under the generic title instead. -/
theorem claim_C8_counterexample :
    formatSessionYaml (some (.obj [])) =
      chalkBoldBlue "\n=== Call Session Information ===\n\n" ++ "\x7b\x7d\n" ∧
    formatSessionYaml (some (.obj [])) ≠ "No session information available" := by
  constructor
  · decide
  · decide

/-- C8 (amended): for every *falsy* input — absent (`undefined`), `null`,
the empty string, `0` or `false` — both renderers return their distinct
"no information" result and never raise (they are total functions); an
empty mapping, however, renders as an empty structure. -/
theorem claim_C8_amended :
    (∀ v : Option JValue, jsFalsyOpt v = true →
      formatSessionYaml v = "No session information available") ∧
    (∀ (v : Option JValue) (t : String), jsFalsyOpt v = true →
      formatYaml v t = "No data available") := by
  constructor
  · intro v h
    cases v with
    | none => rfl
    | some w =>
      have hw : jsFalsy w = true := h
      unfold formatSessionYaml
      dsimp only
      rw [if_pos hw]
  · intro v t h
    cases v with
    | none => rfl
    | some w =>
      have hw : jsFalsy w = true := h
      unfold formatYaml
      dsimp only
      rw [if_pos hw]

/-- Witness for the amended C8 at `null` and `undefined`. -/
theorem claim_C8_witness :
    formatSessionYaml (some .null) = "No session information available" ∧
    formatYaml none "Domain Information for d" = "No data available" :=
  ⟨claim_C8_amended.1 (some .null) (by decide),
   claim_C8_amended.2 none "Domain Information for d" (by decide)⟩

/-- C10 counterexample: a session document whose `log` field is present
but `null` (falsy).  With `--log`, the command warns and renders the full
document, so the rendered document does not contain exactly the single
key `log` even though a `log` field is present. -/
theorem claim_C10_counterexample :
    (jsField [("log", JValue.null), ("x", JValue.num 1)] "log").isSome = true ∧
    selectCallData true (.obj [("log", JValue.null), ("x", JValue.num 1)]) =
      (true, .obj [("log", JValue.null), ("x", JValue.num 1)]) ∧
    objKeys
        (selectCallData true
          (.obj [("log", JValue.null), ("x", JValue.num 1)])).2 ≠ ["log"] :=
  ⟨rfl, rfl, by decide⟩

/-- C10 (amended): with `--log`, a session document lacking a `log` field
gets the warning and is still rendered in full (no abort, not empty); when
a `log` field is present *with a truthy value*, the rendered document
contains exactly the single key `log`. -/
theorem claim_C10_amended :
    (∀ l : List (String × JValue), jsField l "log" = none →
      selectCallData true (.obj l) = (true, .obj l)) ∧
    (∀ (l : List (String × JValue)) (lv : JValue), jsField l "log" = some lv →
      jsTruthy lv = true →
      selectCallData true (.obj l) = (false, .obj [("log", lv)]) ∧
      objKeys (selectCallData true (.obj l)).2 = ["log"]) := by
  constructor
  · intro l h
    unfold selectCallData
    dsimp only
    rw [h]
    rfl
  · intro l lv h ht
    have hsel : selectCallData true (.obj l) = (false, .obj [("log", lv)]) := by
      unfold selectCallData
      dsimp only
      rw [h]
      dsimp only
      rw [if_pos ht]
      rfl
    exact ⟨hsel, by rw [hsel]; rfl⟩

/-- Witness for the amended C10 at concrete documents. -/
theorem claim_C10_witness :
    selectCallData true (.obj [("x", JValue.num 1)]) =
      (true, .obj [("x", JValue.num 1)]) ∧
    selectCallData true
        (.obj [("log", JValue.arr [JValue.num 1]), ("x", JValue.num 2)]) =
      (false, .obj [("log", JValue.arr [JValue.num 1])]) :=
  ⟨claim_C10_amended.1 [("x", JValue.num 1)] rfl,
   (claim_C10_amended.2 [("log", JValue.arr [JValue.num 1]), ("x", JValue.num 2)]
      (JValue.arr [JValue.num 1]) rfl rfl).1⟩

theorem infix_of_dotfree {A B t : List Char} (hdot : '.' ∉ t) (hne : t ≠ [])
    (h : t.IsInfix (A ++ ['.', '.', '.'] ++ B)) :
    t.IsInfix A ∨ t.IsInfix B := by
  obtain ⟨s, e, hse⟩ := h
  have hm : 0 < t.length := List.length_pos.mpr hne
  have hlen : s.length + t.length + e.length = A.length + 3 + B.length := by
    have h0 := congrArg List.length hse
    simp [List.length_append] at h0
    omega
  have ht0 : ((s ++ t ++ e).drop s.length).take t.length = t := by
    rw [List.append_assoc, List.drop_left, List.take_left]
  rw [hse] at ht0
  by_cases h1 : s.length + t.length ≤ A.length
  · left
    rw [List.append_assoc] at ht0
    rw [List.drop_append_of_le_length (by omega)] at ht0
    rw [List.take_append_of_le_length (by simp [List.length_drop]; omega)] at ht0
    have hinf : ((A.drop s.length).take t.length).IsInfix A :=
      (List.take_prefix _ _).isInfix.trans (List.drop_suffix _ _).isInfix
    exact ht0 ▸ hinf
  · by_cases h2 : A.length + 3 ≤ s.length
    · right
      have hk : s.length =
          (A ++ ['.', '.', '.']).length + (s.length - (A.length + 3)) := by
        simp [List.length_append]
        omega
      rw [hk, List.drop_append] at ht0
      have hinf : ((B.drop (s.length - (A.length + 3))).take t.length).IsInfix B :=
        (List.take_prefix _ _).isInfix.trans (List.drop_suffix _ _).isInfix
      exact ht0 ▸ hinf
    · exfalso
      have hA : A.length < s.length + t.length := by omega
      have hB : s.length < A.length + 3 := by omega
      set idx := max s.length A.length with hidx
      have hge : A.length ≤ idx := le_max_right _ _
      have hges : s.length ≤ idx := le_max_left _ _
      have hbound2 : idx < (A ++ ['.', '.', '.']).length := by
        simp [List.length_append]
        omega
      have hbound : idx < (A ++ ['.', '.', '.'] ++ B).length := by
        simp [List.length_append]
        omega
      have hb4 : idx - s.length < t.length := by omega
      have hb5 : idx - s.length <
          (((A ++ ['.', '.', '.'] ++ B).drop s.length).take t.length).length := by
        simp [List.length_take, List.length_drop, List.length_append]
        omega
      have hL1 : (A ++ ['.', '.', '.'] ++ B)[idx] = (A ++ ['.', '.', '.'])[idx] :=
        List.getElem_append_left hbound2
      have hb3 : idx - A.length < 3 := by omega
      have hL2 : (A ++ ['.', '.', '.'])[idx] =
          (['.', '.', '.'] : List Char)[idx - A.length] :=
        List.getElem_append_right hge
      have hdotv : (['.', '.', '.'] : List Char)[idx - A.length] = '.' :=
        List.getElem_replicate '.' (show idx - A.length <
          (List.replicate 3 '.').length by simp; omega)
      have hchain :
          (((A ++ ['.', '.', '.'] ++ B).drop s.length).take t.length)[idx - s.length] =
            (A ++ ['.', '.', '.'] ++ B)[s.length + (idx - s.length)] := by
        rw [List.getElem_take, List.getElem_drop]
      have heq : s.length + (idx - s.length) = idx := by omega
      have hmem :
          (((A ++ ['.', '.', '.'] ++ B).drop s.length).take t.length)[idx - s.length] ∈
            ((A ++ ['.', '.', '.'] ++ B).drop s.length).take t.length :=
        List.getElem_mem hb5
      rw [hchain] at hmem
      rw [show (A ++ ['.', '.', '.'] ++ B)[s.length + (idx - s.length)] =
          (A ++ ['.', '.', '.'] ++ B)[idx] from by congr 1] at hmem
      rw [hL1, hL2, hdotv] at hmem
      rw [ht0] at hmem
      exact hdot hmem

/-- C9 counterexample: for the stored key `abcd...bcdX` (11 characters,
containing an ellipsis), the masked display form equals the key itself, so
the whole literal key — middle included — appears in the output, refuting
"no part of the literal stored apiKey other than its first 4 and last 4
characters appears in the output". -/
theorem claim_C9_counterexample :
    ("abcd...bcdX" : String).length > 8 ∧
    maskKey "abcd...bcdX" = "abcd...bcdX" ∧
    ¬ NoLeak "abcd...bcdX" (maskKey "abcd...bcdX") := by
  refine ⟨by decide, by decide, ?_⟩
  intro hnl
  have h := hnl "abcd...bcdX" (by decide) (by decide) (by decide)
  exact absurd h (by decide)

/-- C9 (amended): the masked form is first-4 ++ `...` ++ last-4 for keys
longer than 8 characters and the fixed mask otherwise; `display` never
writes the store back; and for every secret longer than 8 characters that
contains no `.` character, no part of the stored key other than its first
four and last four characters appears in the masked output.  (A key whose
middle contains the ellipsis pattern can reproduce middle characters, as
the counterexample shows.) -/
theorem claim_C9_amended :
    (∀ k : String, k.length > 8 →
      maskKey k = String.mk (k.data.take 4) ++ "..." ++
        String.mk (k.data.drop (k.length - 4))) ∧
    (∀ k : String, ¬ k.length > 8 → maskKey k = "********") ∧
    (∀ fs : FileState, (displayCommand fs).1 = fs) ∧
    (∀ k : String, k.length > 8 → '.' ∉ k.data → NoLeak k (maskKey k)) := by
  refine ⟨?_, ?_, ?_, ?_⟩
  · intro k h
    unfold maskKey
    rw [if_pos h]
  · intro k h
    unfold maskKey
    rw [if_neg h]
  · intro fs
    rfl
  · intro k hlen hdot t htne hinKey hinMask
    have hmask : (maskKey k).data =
        k.data.take 4 ++ ['.', '.', '.'] ++ k.data.drop (k.length - 4) := by
      unfold maskKey
      rw [if_pos hlen]
      rw [String.data_append, String.data_append]
    rw [hmask] at hinMask
    have htne' : t.data ≠ [] := by
      intro hd
      apply htne
      cases t
      simp_all
    have hdotT : '.' ∉ t.data := by
      intro hmem
      exact hdot (hinKey.sublist.subset hmem)
    exact infix_of_dotfree hdotT htne' hinMask

/-- Witness for the amended C9 at concrete keys and stores. -/
theorem claim_C9_witness :
    maskKey "abcdefghijkl" = String.mk ("abcdefghijkl".data.take 4) ++ "..." ++
      String.mk ("abcdefghijkl".data.drop (("abcdefghijkl" : String).length - 4)) ∧
    maskKey "short" = "********" ∧
    (displayCommand (.store [("d.com", ⟨"k"⟩)])).1 = .store [("d.com", ⟨"k"⟩)] ∧
    NoLeak "abcdefghijkl" (maskKey "abcdefghijkl") :=
  ⟨claim_C9_amended.1 "abcdefghijkl" (by decide),
   claim_C9_amended.2.1 "short" (by decide),
   claim_C9_amended.2.2.1 (.store [("d.com", ⟨"k"⟩)]),
   claim_C9_amended.2.2.2 "abcdefghijkl" (by decide) (by decide)⟩
